import Mathlib

/-!
Verification of `src/weather.py` (prometheus-weather-gov).

Shallow embedding conventions:
* Timestamps are integers (`Int`); `pendulum.now()` becomes an explicit `now`
  parameter at every call site that samples the clock.
* The `OrderedDict` backing `ExpiringCache.entries` is a list of key/entry
  pairs whose head is the front of the ordered dict (the most-recently
  inserted position, since every insert ends with `move_to_end(key,
  last=False)`); the list's last element is the tail that
  `popitem(last=True)` removes.
* Prometheus counters become `Nat` fields (unlabeled) or lists of the labels
  in the order the increments happened (labeled counters).
* Python exceptions are modelled with an explicit success flag or `Except`:
  `ExpiringCache.insert` returns `(state, returnedNormally)`, and functions
  whose exceptions escape to the caller return `Except`.
* Remote HTTP calls are oracles passed in as arguments: an
  `Except Unit payload` value standing for the outcome of the one
  `requests.get(...).json()` a code path performs.
* Numeric measurement values are rationals (`ℚ`).
-/

namespace Weather

/-- One value of `ExpiringCache.entries`: the dict
`{"validity": ..., "value": ...}` built in `ExpiringCache.insert`. -/
structure CacheEntry (V : Type) where
  validity : Int
  value : V
deriving DecidableEq

/-- State of one `ExpiringCache` object: the ordered `entries` mapping (head =
front = most recently inserted), the `max_size` bound, the TTL that
`age_params` adds to `pendulum.now()` on insert, and its Prometheus counters
(`expiring_dict_cache_write`, `..._get{result=hit}`, `..._get{result=miss}`,
`..._expirations`, `..._overflow`). -/
structure ExpiringCache (K V : Type) where
  entries : List (K × CacheEntry V)
  maxSize : Nat
  ttl : Int
  writes : Nat
  hits : Nat
  misses : Nat
  expirations : Nat
  overflow : Nat
deriving DecidableEq

/-- A freshly constructed cache (`__init__`): empty entries, zeroed counters. -/
def mkCache (K V : Type) (maxSize : Nat) (ttl : Int) : ExpiringCache K V :=
  { entries := [], maxSize := maxSize, ttl := ttl,
    writes := 0, hits := 0, misses := 0, expirations := 0, overflow := 0 }

/-- Association-list lookup, the model of Python `dict.get` / `dict[k]`
(dict keys are unique on reachable states, so first-match lookup agrees). -/
def assocFind {K A : Type} [DecidableEq K] (k : K) : List (K × A) → Option A
  | [] => none
  | p :: rest => if p.1 = k then some p.2 else assocFind k rest

/-- Removal of a key, the model of `del self.entries[key]` and of the
reposition an overwriting `self.entries[key] = ...; move_to_end` performs. -/
def eraseKey {K A : Type} [DecidableEq K] (k : K) : List (K × A) → List (K × A)
  | [] => []
  | p :: rest => if p.1 = k then rest else p :: eraseKey k rest

/-- `ExpiringCache.get` (weather.py lines 59-74).  Returns the Python return
value together with the cache state after the call.  Note the expiry test is
`record["validity"] < pendulum.now()`: strict. -/
def ExpiringCache.get {K V : Type} [DecidableEq K] (c : ExpiringCache K V)
    (k : K) (now : Int) : Option V × ExpiringCache K V :=
  match assocFind k c.entries with
  | none => (none, { c with misses := c.misses + 1 })
  | some record =>
    if record.validity < now then
      (none, { c with misses := c.misses + 1,
                      expirations := c.expirations + 1,
                      entries := eraseKey k c.entries })
    else
      (some record.value, { c with hits := c.hits + 1 })

/-- `ExpiringCache.insert` (weather.py lines 76-87).  The `Bool` is `true`
when the method returns normally, `false` when `popitem(last=True)` raises
`KeyError` on an empty dict (possible only when `max_size = 0`); on that
path the overflow counter was already incremented and nothing else changed.
A normal insert at capacity pops the tail (least-recently-inserted) entry;
then `self.entries[key] = {...}` plus `move_to_end(key, last=False)` leaves
the key at the front with a fresh `validity = now + ttl`, preserving the
relative order of the other entries. -/
def ExpiringCache.insert {K V : Type} [DecidableEq K] (c : ExpiringCache K V)
    (k : K) (v : V) (now : Int) : ExpiringCache K V × Bool :=
  if c.maxSize ≤ c.entries.length then
    if c.entries.isEmpty then
      ({ c with overflow := c.overflow + 1 }, false)
    else
      ({ c with overflow := c.overflow + 1,
                writes := c.writes + 1,
                entries := (k, ⟨now + c.ttl, v⟩) ::
                  eraseKey k c.entries.dropLast }, true)
  else
    ({ c with writes := c.writes + 1,
              entries := (k, ⟨now + c.ttl, v⟩) :: eraseKey k c.entries }, true)

/-- One externally invokable cache operation, with the clock value at which
it runs. -/
inductive CacheOp (K V : Type) where
  | probe (k : K) (now : Int)
  | store (k : K) (v : V) (now : Int)

/-- Run one operation, keeping the resulting state. -/
def runOp {K V : Type} [DecidableEq K] (c : ExpiringCache K V) :
    CacheOp K V → ExpiringCache K V
  | .probe k now => (c.get k now).2
  | .store k v now => (c.insert k v now).1

/-- Run a sequence of get/insert operations against a cache. -/
def runOps {K V : Type} [DecidableEq K] (c : ExpiringCache K V)
    (ops : List (CacheOp K V)) : ExpiringCache K V :=
  ops.foldl runOp c

/-- Insert a list of keys in order, all with the same value and clock. -/
def insertAll {K V : Type} [DecidableEq K] (c : ExpiringCache K V)
    (ks : List K) (v : V) (now : Int) : ExpiringCache K V :=
  ks.foldl (fun c k => (c.insert k v now).1) c

/-- The `LatLong` named tuple (weather.py lines 90-92); coordinates are
modelled as rationals. -/
structure LatLong where
  latitude : ℚ
  longitude : ℚ
deriving DecidableEq

/-- The `GridpointLocation` named tuple (weather.py lines 106-108). -/
structure GridpointLocation where
  wfo : String
  x : Int
  y : Int
deriving DecidableEq

/-- The fields `get_gridpoint_location` reads out of the
`api.weather.gov/points` JSON document: `data["properties"]["cwa"]`,
`["gridX"]`, `["gridY"]`, each possibly missing (a missing one raises
`KeyError` there). -/
structure PointsData where
  cwa : Option String
  gridX : Option Int
  gridY : Option Int
deriving DecidableEq

/-- The body of the `try` block at weather.py lines 129-137: building the
`GridpointLocation` succeeds iff all three fields are present; a missing
field is the caught `KeyError`. -/
def gridpointOfData (d : PointsData) : Option GridpointLocation :=
  match d.cwa, d.gridX, d.gridY with
  | some wfo, some x, some y => some ⟨wfo, x, y⟩
  | _, _, _ => none

/-- State of the `@lru_cache` memo on `get_gridpoint_location` plus the
`weather_gridpoint_lookup_failures` counter.  The memo stores completed
return values — including `None` results. -/
structure GridMemo where
  table : List (LatLong × Option GridpointLocation)
  failures : Nat
deriving DecidableEq

/-- `get_gridpoint_location` (weather.py lines 118-137) as one memoized
call.  `fetchRes` is the outcome of the single
`requests.get(f"https://api.weather.gov/points/{lat},{long}").json()` the
body would perform: `.error` stands for a network/JSON exception.  The
result's `Bool` records whether the remote fetch was attempted (false on a
memo hit).  On a fetch exception, `count_exceptions()` increments the
failure counter and the exception propagates (`.error`), and `lru_cache`
stores nothing; on missing fields, `count_exceptions(KeyError)` increments
the counter, the `except KeyError` returns `None`, and `lru_cache` stores
that `None`. -/
def get_gridpoint_location (fetchRes : Except Unit PointsData)
    (memo : GridMemo) (ll : LatLong) :
    Except GridMemo (Option GridpointLocation × GridMemo × Bool) :=
  match assocFind ll memo.table with
  | some r => .ok (r, memo, false)
  | none =>
    match fetchRes with
    | .error _ => .error { memo with failures := memo.failures + 1 }
    | .ok d =>
      match gridpointOfData d with
      | some g =>
        .ok (some g, { memo with table := (ll, some g) :: memo.table }, true)
      | none =>
        .ok (none, { table := (ll, none) :: memo.table,
                     failures := memo.failures + 1 }, true)

/-- One reading of a measurement time series: the parsed
`pendulum.parse(report["validTime"]).end` instant and `report["value"]`. -/
structure Reading where
  endTime : Int
  value : ℚ
deriving DecidableEq

/-- One `data["properties"][key]` record: the declared `uom` tag (possibly
missing) and the list of readings under `"values"`. -/
structure MeasureRecords where
  uom : Option String
  values : List Reading
deriving DecidableEq

/-- The scanning loop of `fetch_current` (weather.py lines 284-287). -/
def fetchCurrentLoop (now : Int) : List Reading → Option ℚ
  | [] => none
  | r :: rest => if now < r.endTime then some r.value else fetchCurrentLoop now rest

/-- `fetch_current` (weather.py lines 281-287): the first reading, in given
order, whose interval end is strictly after `now`. -/
def fetch_current (now : Int) (data : MeasureRecords) : Option ℚ :=
  fetchCurrentLoop now data.values

/-- The `UnitConversion` named tuple (weather.py lines 101-103). -/
structure UnitConversion where
  name : String
  convert : ℚ → ℚ

/-- The `prom_units` dictionary built inside `convert_unit`
(weather.py lines 148-155). -/
def prom_units (unit : String) : Option UnitConversion :=
  if unit = "degC" then some ⟨"celsius", fun x => x⟩
  else if unit = "percent" then some ⟨"ratio", fun x => x / 100⟩
  else if unit = "m" then some ⟨"meters", fun x => x⟩
  else if unit = "degree_(angle)" then some ⟨"angle", fun x => x⟩
  else if unit = "m_s-1" then some ⟨"meters_per_second", fun x => x⟩
  else if unit = "mm" then some ⟨"meters", fun x => x / 1000⟩
  else none

/-- `convert_unit` (weather.py lines 147-161).  The second component is the
`weather_forecast_conversion_failures` counter, as the list of `unit`
labels incremented so far; an unknown tag appends its label. -/
def convert_unit (failures : List String) (unit : String) :
    Option UnitConversion × List String :=
  match prom_units unit with
  | none => (none, failures ++ [unit])
  | some c => (some c, failures)

/-- The `Measure` named tuple (weather.py lines 95-98). -/
structure Measure where
  key : String
  name : String
  unit : String
deriving DecidableEq

/-- The forecast JSON document as `get_weather` reads it:
`data["properties"]` keyed by measure source keys. -/
structure Payload where
  properties : List (String × MeasureRecords)
deriving DecidableEq

/-- The labeled failure counters the per-measure loop of `get_weather`
touches: `weather_forecast_processing_failures` (unlabeled count),
`weather_forecast_mismatched_units` (labels `(measure, unit)`),
`weather_forecast_fetch_current_failures` (label `measure`) and
`weather_forecast_conversion_failures` (label `unit`), the labeled ones as
lists of labels in increment order. -/
structure PipelineMetrics where
  processingFailures : Nat
  mismatched : List (String × Option String)
  fetchCurrentFailures : List String
  convFailures : List String
deriving DecidableEq

/-- All-zero counters. -/
def initMetrics : PipelineMetrics := ⟨0, [], [], []⟩

/-- One iteration of the `for measure in measures` loop of `get_weather`
(weather.py lines 251-275), threading the report (the gauges set so far, as
`(gauge name, converted value)` pairs) and the counters.  A missing
`measure.key` is the `KeyError` counted by
`FORECAST_PROCESSING_FAILURES.count_exceptions()` and swallowed by the
`except KeyError` — the loop continues.  A `uom` differing from
`f"unit:{measure.unit}"` records a mismatch but does not stop processing;
conversion always uses `measure.unit`. -/
def processMeasure (now : Int) (payload : Payload)
    (acc : List (String × ℚ) × PipelineMetrics) (m : Measure) :
    List (String × ℚ) × PipelineMetrics :=
  let report := acc.1
  let met := acc.2
  match assocFind m.key payload.properties with
  | none => (report, { met with processingFailures := met.processingFailures + 1 })
  | some records =>
    let met := if records.uom ≠ some ("unit:" ++ m.unit)
               then { met with mismatched := met.mismatched ++ [(m.key, records.uom)] }
               else met
    let value := fetch_current now records
    let met := if value.isNone
               then { met with fetchCurrentFailures :=
                        met.fetchCurrentFailures ++ [m.key] }
               else met
    let conv := convert_unit met.convFailures m.unit
    let met := { met with convFailures := conv.2 }
    match conv.1, value with
    | some u, some v =>
      (report ++ [("weather_" ++ m.name ++ "_" ++ u.name, u.convert v)], met)
    | _, _ => (report, met)

/-- The whole report-building loop of `get_weather` (weather.py lines
250-275): the fresh `CollectorRegistry` is the empty report, and the loop
runs over the measure catalog. -/
def build_report (now : Int) (payload : Payload) (measures : List Measure) :
    List (String × ℚ) × PipelineMetrics :=
  measures.foldl (processMeasure now payload) ([], initMetrics)

/-- The gauge the loop would register for measure `m`, when it registers
one: skipped when the key is missing, when no current value exists, or when
the expected unit is unknown to `convert_unit`.  Characterizes the report
contribution of one loop iteration. -/
def measureEntry (now : Int) (payload : Payload) (m : Measure) :
    Option (String × ℚ) :=
  match assocFind m.key payload.properties with
  | none => none
  | some records =>
    match prom_units m.unit, fetch_current now records with
    | some u, some v =>
      some ("weather_" ++ m.name ++ "_" ++ u.name, u.convert v)
    | _, _ => none

/-- The counter increments one loop iteration performs for measure `m`. -/
def measureDelta (now : Int) (payload : Payload) (m : Measure) :
    PipelineMetrics :=
  match assocFind m.key payload.properties with
  | none => ⟨1, [], [], []⟩
  | some records =>
    ⟨0,
     if records.uom ≠ some ("unit:" ++ m.unit) then [(m.key, records.uom)] else [],
     if (fetch_current now records).isNone then [m.key] else [],
     if (prom_units m.unit).isNone then [m.unit] else []⟩

/-- Pointwise accumulation of counter increments. -/
def addMetrics (a b : PipelineMetrics) : PipelineMetrics :=
  ⟨a.processingFailures + b.processingFailures,
   a.mismatched ++ b.mismatched,
   a.fetchCurrentFailures ++ b.fetchCurrentFailures,
   a.convFailures ++ b.convFailures⟩

/-- Total counter increments of a run of the loop over `measures`. -/
def totalDelta (now : Int) (payload : Payload) : List Measure → PipelineMetrics
  | [] => initMetrics
  | m :: ms => addMetrics (measureDelta now payload m) (totalDelta now payload ms)

/-- The report type: the gauges of one `CollectorRegistry`, as pairs of
gauge name and value. -/
abbrev Report := List (String × ℚ)

/-- The type of `weather_cache` (weather.py lines 186-188). -/
abbrev WeatherCache := ExpiringCache GridpointLocation Report

/-- `get_weather` (weather.py lines 191-278).  `fetchRes` is the outcome of
the single `requests.get(f".../gridpoints/{wfo}/{x},{y}").json()` call a
cache miss performs; `.error` (a network/JSON exception) is counted by
`FORECAST_LOOKUP_FAILURES.count_exceptions()` — modelled by the `Nat`
lookup-failure counter threaded through — and propagates, reaching neither
the report loop nor `weather_cache.insert`.  The `.ok` result carries the
returned registry, the cache state, the lookup-failure counter and the
loop's counters; the `.error` result carries the cache state and the
lookup-failure counter at the point the exception escaped. -/
def get_weather (fetchRes : Except Unit Payload) (measures : List Measure)
    (c : WeatherCache) (lookupFailures : Nat) (loc : GridpointLocation)
    (now : Int) :
    Except (WeatherCache × Nat) (Report × WeatherCache × Nat × PipelineMetrics) :=
  match c.get loc now with
  | (some cached, c') => .ok (cached, c', lookupFailures, initMetrics)
  | (none, c') =>
    match fetchRes with
    | .error _ => .error (c', lookupFailures + 1)
    | .ok payload =>
      let bp := build_report now payload measures
      let ins := c'.insert loc bp.1 now
      if ins.2 then .ok (bp.1, ins.1, lookupFailures, bp.2)
      else .error (ins.1, lookupFailures)

/-- The cache state carried by a `get_weather` that raised. -/
def errState {A : Type} :
    Except (WeatherCache × Nat) A → Option (WeatherCache × Nat)
  | .error s => some s
  | .ok _ => none

/-- A concrete cache holding one entry, key `0`, whose `validity` is `5`. -/
def c1Cache : ExpiringCache Nat Nat :=
  { entries := [(0, ⟨5, 7⟩)], maxSize := 1, ttl := 10,
    writes := 0, hits := 0, misses := 0, expirations := 0, overflow := 0 }

/-- A full 2-entry cache: key `2` at the front (most recently inserted),
key `1` at the tail. -/
def c4Cache : ExpiringCache Nat Nat :=
  { entries := [(2, ⟨10, 0⟩), (1, ⟨10, 0⟩)], maxSize := 2, ttl := 10,
    writes := 0, hits := 0, misses := 0, expirations := 0, overflow := 0 }

/-- A one-entry cache of capacity 2, key `1` with `validity = 5`. -/
def c4wCache : ExpiringCache Nat Nat :=
  { entries := [(1, ⟨5, 7⟩)], maxSize := 2, ttl := 10,
    writes := 0, hits := 0, misses := 0, expirations := 0, overflow := 0 }

/-- A weather cache holding one already-expired report for grid point
`("X", 0, 0)`: `validity = 0`. -/
def c6Cache : WeatherCache :=
  { entries := [(⟨"X", 0, 0⟩, ⟨0, []⟩)], maxSize := 4, ttl := 5,
    writes := 0, hits := 0, misses := 0, expirations := 0, overflow := 0 }

theorem length_eraseKey_le {K A : Type} [DecidableEq K] (k : K)
    (l : List (K × A)) : (eraseKey k l).length ≤ l.length := by
  induction l with
  | nil => simp [eraseKey]
  | cons p rest ih =>
    simp only [eraseKey]
    split
    · exact Nat.le_succ _
    · simpa using Nat.succ_le_succ ih

theorem eraseKey_of_not_mem {K A : Type} [DecidableEq K] (k : K)
    (l : List (K × A)) (h : k ∉ l.map Prod.fst) : eraseKey k l = l := by
  induction l with
  | nil => rfl
  | cons p rest ih =>
    simp only [List.map_cons, List.mem_cons] at h
    push_neg at h
    have hp : ¬ p.1 = k := fun hp => h.1 hp.symm
    simp only [eraseKey, if_neg hp, ih h.2]

theorem length_eraseKey_of_mem {K A : Type} [DecidableEq K] (k : K)
    (l : List (K × A)) (h : k ∈ l.map Prod.fst) :
    (eraseKey k l).length + 1 = l.length := by
  induction l with
  | nil => simp at h
  | cons p rest ih =>
    by_cases hp : p.1 = k
    · simp [eraseKey, hp]
    · simp only [List.map_cons, List.mem_cons] at h
      rcases h with h | h
      · exact absurd h.symm hp
      · have := ih h
        simp only [eraseKey, if_neg hp, List.length_cons]
        omega

theorem assocFind_eq_none_iff {K A : Type} [DecidableEq K] (k : K)
    (l : List (K × A)) : assocFind k l = none ↔ k ∉ l.map Prod.fst := by
  induction l with
  | nil => simp [assocFind]
  | cons p rest ih =>
    by_cases hp : p.1 = k
    · simp [assocFind, hp]
    · simp only [assocFind, if_neg hp, List.map_cons, List.mem_cons, ih]
      constructor
      · rintro h (h1 | h2)
        · exact hp h1.symm
        · exact h h2
      · intro h h2
        exact h (Or.inr h2)

theorem assocFind_isSome_of_mem {K A : Type} [DecidableEq K] (k : K)
    (l : List (K × A)) (h : k ∈ l.map Prod.fst) :
    (assocFind k l).isSome := by
  rcases hf : assocFind k l with _ | a
  · exact absurd h ((assocFind_eq_none_iff k l).mp hf)
  · rfl

/-- C1 counterexample: the claim says that when `now() ≥ entry.expiresAt` the
`get` deletes the entry and returns absent.  At the boundary `now =
expiresAt = 5` the code's test `record["validity"] < pendulum.now()` is
false, so `get` returns the stored value `7` as a hit and deletes nothing:
the claim's premise holds (`expiresAt ≤ now`) while every part of its
conclusion fails. -/
theorem C1_counterexample :
    assocFind 0 c1Cache.entries = some ⟨5, 7⟩ ∧
    (5 : Int) ≤ 5 ∧
    (c1Cache.get 0 5).1 = some 7 ∧
    (c1Cache.get 0 5).2.entries = c1Cache.entries ∧
    (c1Cache.get 0 5).2.misses = c1Cache.misses ∧
    (c1Cache.get 0 5).2.expirations = c1Cache.expirations := by
  decide

/-- C1 (amended): if at the time of a `get` call `now() > entry.expiresAt`
(strictly), then `get` deletes the entry, increments the miss counter and the
expiration counter, and returns absent; consequently no `get` ever returns a
value whose entry's `expiresAt` is strictly before `now()`: a returned value
always comes from an entry with `now() ≤ expiresAt`. -/
theorem C1_expiry_strict {K V : Type} [DecidableEq K] :
    (∀ (c : ExpiringCache K V) (k : K) (now : Int) (e : CacheEntry V),
      assocFind k c.entries = some e → e.validity < now →
      (c.get k now).1 = none ∧
      (c.get k now).2.entries = eraseKey k c.entries ∧
      (c.get k now).2.misses = c.misses + 1 ∧
      (c.get k now).2.expirations = c.expirations + 1) ∧
    (∀ (c : ExpiringCache K V) (k : K) (now : Int) (v : V),
      (c.get k now).1 = some v →
      ∃ e, assocFind k c.entries = some e ∧ now ≤ e.validity ∧ v = e.value) := by
  constructor
  · intro c k now e hfind hexp
    simp only [ExpiringCache.get, hfind, if_pos hexp]
    simp
  · intro c k now v hget
    rcases hfind : assocFind k c.entries with _ | e
    · simp only [ExpiringCache.get, hfind] at hget
      exact Option.noConfusion hget
    · by_cases hexp : e.validity < now
      · simp only [ExpiringCache.get, hfind, if_pos hexp] at hget
        exact Option.noConfusion hget
      · simp only [ExpiringCache.get, hfind, if_neg hexp] at hget
        injection hget with h
        exact ⟨e, rfl, le_of_not_lt hexp, h.symm⟩

/-- C1 witness: the amended theorem applied to `c1Cache` at `now = 6`, one
tick past the entry's expiry. -/
theorem C1_witness :
    (assocFind 0 c1Cache.entries = some ⟨5, 7⟩ ∧ (5 : Int) < 6) ∧
    ((c1Cache.get 0 6).1 = none ∧
     (c1Cache.get 0 6).2.entries = eraseKey 0 c1Cache.entries ∧
     (c1Cache.get 0 6).2.misses = c1Cache.misses + 1 ∧
     (c1Cache.get 0 6).2.expirations = c1Cache.expirations + 1) :=
  ⟨⟨rfl, by decide⟩,
   (C1_expiry_strict (K := Nat) (V := Nat)).1 c1Cache 0 6 ⟨5, 7⟩ rfl (by decide)⟩

theorem runOp_maxSize {K V : Type} [DecidableEq K] (c : ExpiringCache K V)
    (op : CacheOp K V) : (runOp c op).maxSize = c.maxSize := by
  rcases op with ⟨k, now⟩ | ⟨k, v, now⟩
  · simp only [runOp, ExpiringCache.get]
    rcases assocFind k c.entries with _ | e
    · rfl
    · by_cases hexp : e.validity < now <;> simp [hexp]
  · simp only [runOp, ExpiringCache.insert]
    by_cases hfull : c.maxSize ≤ c.entries.length
    · by_cases hemp : c.entries.isEmpty <;> simp [hfull, hemp]
    · simp [hfull]

theorem runOp_length {K V : Type} [DecidableEq K] (c : ExpiringCache K V)
    (op : CacheOp K V) (h : c.entries.length ≤ c.maxSize) :
    (runOp c op).entries.length ≤ c.maxSize := by
  rcases op with ⟨k, now⟩ | ⟨k, v, now⟩
  · simp only [runOp, ExpiringCache.get]
    rcases assocFind k c.entries with _ | e
    · exact h
    · by_cases hexp : e.validity < now
      · simp only [if_pos hexp]
        exact le_trans (length_eraseKey_le k c.entries) h
      · simp only [if_neg hexp]
        exact h
  · simp only [runOp, ExpiringCache.insert]
    by_cases hfull : c.maxSize ≤ c.entries.length
    · by_cases hemp : c.entries.isEmpty
      · simp only [if_pos hfull, if_pos hemp]
        exact h
      · simp only [if_pos hfull, if_neg hemp, List.length_cons]
        have hne : c.entries ≠ [] := fun hnil => hemp (by simp [hnil])
        have h1 : 1 ≤ c.entries.length := List.length_pos.mpr hne
        have h2 := length_eraseKey_le k c.entries.dropLast
        have h3 : c.entries.dropLast.length = c.entries.length - 1 :=
          List.length_dropLast c.entries
        omega
    · simp only [if_neg hfull, List.length_cons]
      have h2 := length_eraseKey_le k c.entries
      omega

theorem runOps_inv {K V : Type} [DecidableEq K] (ops : List (CacheOp K V))
    (c : ExpiringCache K V) (h : c.entries.length ≤ c.maxSize) :
    (runOps c ops).entries.length ≤ (runOps c ops).maxSize ∧
    (runOps c ops).maxSize = c.maxSize := by
  induction ops generalizing c with
  | nil => exact ⟨h, rfl⟩
  | cons op rest ih =>
    have hstep : (runOp c op).entries.length ≤ (runOp c op).maxSize := by
      rw [runOp_maxSize]
      exact runOp_length c op h
    have := ih (runOp c op) hstep
    simp only [runOps, List.foldl_cons] at this ⊢
    exact ⟨this.1, by rw [this.2, runOp_maxSize]⟩

theorem insert_full {K V : Type} [DecidableEq K] (c : ExpiringCache K V)
    (k : K) (v : V) (now : Int) (hfull : c.maxSize ≤ c.entries.length)
    (hne : c.entries ≠ []) :
    c.insert k v now =
      ({ c with overflow := c.overflow + 1,
                writes := c.writes + 1,
                entries := (k, ⟨now + c.ttl, v⟩) ::
                  eraseKey k c.entries.dropLast }, true) := by
  have hemp : c.entries.isEmpty = false := by simp [hne]
  simp [ExpiringCache.insert, if_pos hfull, hemp]

theorem insert_slack {K V : Type} [DecidableEq K] (c : ExpiringCache K V)
    (k : K) (v : V) (now : Int) (hroom : c.entries.length < c.maxSize) :
    c.insert k v now =
      ({ c with writes := c.writes + 1,
                entries := (k, ⟨now + c.ttl, v⟩) :: eraseKey k c.entries },
       true) := by
  have hfull : ¬ c.maxSize ≤ c.entries.length := not_le.mpr hroom
  simp [ExpiringCache.insert, hfull]

theorem insertAll_fresh {K V : Type} [DecidableEq K] :
    ∀ (ks : List K) (c : ExpiringCache K V) (v : V) (now : Int),
    ks.Nodup → (∀ k ∈ ks, k ∉ c.entries.map Prod.fst) →
    c.entries.length + ks.length ≤ c.maxSize →
    (insertAll c ks v now).entries.map Prod.fst =
      ks.reverse ++ c.entries.map Prod.fst ∧
    (insertAll c ks v now).overflow = c.overflow ∧
    (insertAll c ks v now).maxSize = c.maxSize ∧
    (insertAll c ks v now).ttl = c.ttl := by
  intro ks
  induction ks with
  | nil =>
    intro c v now _ _ _
    exact ⟨by simp [insertAll], rfl, rfl, rfl⟩
  | cons k ks ih =>
    intro c v now hnodup hfresh hroom
    have hklen : c.entries.length < c.maxSize := by
      simp only [List.length_cons] at hroom
      omega
    have hstep := insert_slack c k v now hklen
    have hkfresh : k ∉ c.entries.map Prod.fst := hfresh k (List.mem_cons_self k ks)
    have herase : eraseKey k c.entries = c.entries := eraseKey_of_not_mem k _ hkfresh
    have hfold : insertAll c (k :: ks) v now = insertAll (c.insert k v now).1 ks v now := by
      simp [insertAll]
    rw [hfold, hstep]
    set c' : ExpiringCache K V :=
      { c with writes := c.writes + 1,
               entries := (k, ⟨now + c.ttl, v⟩) :: eraseKey k c.entries } with hc'
    have hent : c'.entries = (k, ⟨now + c.ttl, v⟩) :: c.entries := by
      rw [hc']
      simp [herase]
    have hnodup' : ks.Nodup := (List.nodup_cons.mp hnodup).2
    have hknot : k ∉ ks := (List.nodup_cons.mp hnodup).1
    have hfresh' : ∀ k' ∈ ks, k' ∉ c'.entries.map Prod.fst := by
      intro k' hk'
      rw [hent]
      simp only [List.map_cons, List.mem_cons]
      rintro (h | h)
      · exact hknot (h ▸ hk')
      · exact hfresh k' (List.mem_cons_of_mem k hk') h
    have hroom' : c'.entries.length + ks.length ≤ c'.maxSize := by
      rw [hent]
      simp only [List.length_cons]
      simp only [List.length_cons] at hroom
      have : c'.maxSize = c.maxSize := by rw [hc']
      omega
    have hres := ih c' v now hnodup' hfresh' hroom'
    refine ⟨?_, ?_, ?_, ?_⟩
    · rw [hres.1, hent]
      simp
    · rw [hres.2.1, hc']
    · rw [hres.2.2.1, hc']
    · rw [hres.2.2.2, hc']

/-- C2: starting from any freshly constructed `ExpiringCache`, after every
sequence of `get`/`insert` operations (at arbitrary clock values) the number
of entries never exceeds `maxSize`; in particular `size(entries) ≤ maxSize`
holds after every `insert` returns. -/
theorem C2_size_bound {K V : Type} [DecidableEq K] (maxSize : Nat) (ttl : Int)
    (ops : List (CacheOp K V)) :
    (runOps (mkCache K V maxSize ttl) ops).entries.length ≤ maxSize := by
  have h := runOps_inv ops (mkCache K V maxSize ttl) (by simp [mkCache])
  calc (runOps (mkCache K V maxSize ttl) ops).entries.length
      ≤ (runOps (mkCache K V maxSize ttl) ops).maxSize := h.1
    _ = maxSize := h.2

/-- C3: (a) whenever `insert` runs on a cache already holding
`size ≥ maxSize` entries (and at least one entry exists), it returns
normally, evicts exactly the least-recently-inserted entry — the tail of the
recency order, i.e. `entries.dropLast` survives (minus the overwritten key)
with the new entry at the front — and increments the overflow counter
exactly once; (b) inserting `maxSize + 1` distinct keys in order into a
fresh cache leaves exactly `maxSize` entries whose recency order is the
reverse of the insertion order of the surviving keys, with the
least-recently-inserted key `k₀` evicted and exactly one overflow
increment. -/
theorem C3_evicts_least_recently_inserted {K V : Type} [DecidableEq K] :
    (∀ (c : ExpiringCache K V) (k : K) (v : V) (now : Int),
      c.maxSize ≤ c.entries.length → c.entries ≠ [] →
      (c.insert k v now).2 = true ∧
      (c.insert k v now).1.entries =
        (k, ⟨now + c.ttl, v⟩) :: eraseKey k c.entries.dropLast ∧
      (c.insert k v now).1.overflow = c.overflow + 1) ∧
    (∀ (maxSize : Nat) (ttl : Int) (v : V) (now : Int) (k₀ : K) (rest : List K),
      (k₀ :: rest).Nodup → rest.length = maxSize → 1 ≤ maxSize →
      (insertAll (mkCache K V maxSize ttl) (k₀ :: rest) v now).entries.length
        = maxSize ∧
      (insertAll (mkCache K V maxSize ttl) (k₀ :: rest) v now).entries.map
        Prod.fst = rest.reverse ∧
      assocFind k₀
        (insertAll (mkCache K V maxSize ttl) (k₀ :: rest) v now).entries
        = none ∧
      (insertAll (mkCache K V maxSize ttl) (k₀ :: rest) v now).overflow
        = 1) := by
  constructor
  · intro c k v now hfull hne
    rw [insert_full c k v now hfull hne]
    exact ⟨rfl, rfl, rfl⟩
  · intro maxSize ttl v now k₀ rest hnodup hlen hpos
    obtain ⟨mid, z, hrest⟩ : ∃ mid z, rest = mid ++ [z] := by
      rcases List.eq_nil_or_concat rest with h | ⟨mid, z, h⟩
      · subst h
        simp at hlen
        omega
      · exact ⟨mid, z, by simpa [List.concat_eq_append] using h⟩
    subst hrest
    have hmidlen : mid.length + 1 = maxSize := by
      simpa using hlen
    have hzmid : z ∉ mid := by
      have h2 := (List.nodup_cons.mp hnodup).2
      have h3 := (List.nodup_append.mp h2).2.2
      intro hm
      exact h3 hm (List.mem_singleton.mpr rfl)
    have hk₀mid : k₀ ∉ mid := by
      have := (List.nodup_cons.mp hnodup).1
      intro hm
      exact this (List.mem_append.mpr (Or.inl hm))
    have hk₀z : k₀ ≠ z := by
      have := (List.nodup_cons.mp hnodup).1
      intro hm
      exact this (List.mem_append.mpr (Or.inr (hm ▸ List.mem_singleton.mpr rfl)))
    have hnodup1 : (k₀ :: mid).Nodup := by
      have h1 := (List.nodup_cons.mp hnodup).1
      have h2 := (List.nodup_append.mp (List.nodup_cons.mp hnodup).2).1
      exact List.nodup_cons.mpr ⟨hk₀mid, h2⟩
    have hsplit : insertAll (mkCache K V maxSize ttl) (k₀ :: (mid ++ [z])) v now
        = ((insertAll (mkCache K V maxSize ttl) (k₀ :: mid) v now).insert
            z v now).1 := by
      show insertAll (mkCache K V maxSize ttl) ((k₀ :: mid) ++ [z]) v now = _
      simp [insertAll, List.foldl_append]
    have hph1 := insertAll_fresh (k₀ :: mid) (mkCache K V maxSize ttl) v now
      hnodup1 (by simp [mkCache]) (by simp [mkCache]; omega)
    set c₁ := insertAll (mkCache K V maxSize ttl) (k₀ :: mid) v now with hc₁
    have hmap1 : c₁.entries.map Prod.fst = mid.reverse ++ [k₀] := by
      have := hph1.1
      simpa [mkCache] using this
    have hlen1 : c₁.entries.length = maxSize := by
      have h := congrArg List.length hmap1
      simp only [List.length_map, List.length_append, List.length_reverse,
        List.length_singleton] at h
      omega
    have hne1 : c₁.entries ≠ [] := by
      intro h
      rw [h] at hlen1
      simp only [List.length_nil] at hlen1
      omega
    have hmax1 : c₁.maxSize = maxSize := by
      simpa [mkCache] using hph1.2.2.1
    have hfull1 : c₁.maxSize ≤ c₁.entries.length := by
      rw [hmax1, hlen1]
    have hover1 : c₁.overflow = 0 := by
      simpa [mkCache] using hph1.2.1
    have hdropmap : c₁.entries.dropLast.map Prod.fst = mid.reverse := by
      rw [List.map_dropLast, hmap1, List.dropLast_concat]
    have herase : eraseKey z c₁.entries.dropLast = c₁.entries.dropLast :=
      eraseKey_of_not_mem z _ (by rw [hdropmap]; simpa using hzmid)
    have hins := insert_full c₁ z v now hfull1 hne1
    have hdrop_len : c₁.entries.dropLast.length = maxSize - 1 := by
      rw [List.length_dropLast, hlen1]
    rw [hsplit, hins]
    refine ⟨?_, ?_, ?_, ?_⟩
    · show ((z, (⟨now + c₁.ttl, v⟩ : CacheEntry V)) ::
        eraseKey z c₁.entries.dropLast).length = maxSize
      rw [herase]
      simp only [List.length_cons, hdrop_len]
      omega
    · show ((z, (⟨now + c₁.ttl, v⟩ : CacheEntry V)) ::
        eraseKey z c₁.entries.dropLast).map Prod.fst = (mid ++ [z]).reverse
      rw [herase]
      simp only [List.map_cons, hdropmap]
      simp
    · show assocFind k₀ ((z, (⟨now + c₁.ttl, v⟩ : CacheEntry V)) ::
        eraseKey z c₁.entries.dropLast) = none
      rw [herase, assocFind_eq_none_iff]
      simp only [List.map_cons, hdropmap]
      simp [List.mem_reverse, hk₀z, hk₀mid]
    · show c₁.overflow + 1 = 1
      rw [hover1]

/-- C3 witness: three distinct keys `[0, 1, 2]` inserted into a fresh cache
of capacity 2 leave the two entries `[2, 1]` (most-recent first), key `0`
evicted, and one overflow increment; and part (a) applied to the
intermediate full cache. -/
theorem C3_witness :
    (([0, 1, 2] : List Nat).Nodup ∧ ([1, 2] : List Nat).length = 2 ∧ 1 ≤ 2) ∧
    ((insertAll (mkCache Nat Nat 2 10) [0, 1, 2] 5 0).entries.length = 2 ∧
     (insertAll (mkCache Nat Nat 2 10) [0, 1, 2] 5 0).entries.map Prod.fst
       = [2, 1] ∧
     assocFind 0 (insertAll (mkCache Nat Nat 2 10) [0, 1, 2] 5 0).entries
       = none ∧
     (insertAll (mkCache Nat Nat 2 10) [0, 1, 2] 5 0).overflow = 1) :=
  ⟨⟨by decide, rfl, by decide⟩,
   (C3_evicts_least_recently_inserted (K := Nat) (V := Nat)).2
     2 10 5 0 0 [1, 2] (by decide) rfl (by decide)⟩

/-- C4 counterexample: re-inserting key `2`, which is already present, into
the full cache `c4Cache` changes `size(entries)` from 2 to 1 — the insert
path sees `len(entries) ≥ max_size` and evicts the tail entry (key `1`)
before overwriting key `2`, so the overwrite is not size-neutral. -/
theorem C4_counterexample :
    (assocFind 2 c4Cache.entries).isSome = true ∧
    c4Cache.entries.length = 2 ∧
    (c4Cache.insert 2 99 0).1.entries.length = 1 := by
  decide

theorem assocFind_isSome_iff {K A : Type} [DecidableEq K] (k : K)
    (l : List (K × A)) : (assocFind k l).isSome = true ↔ k ∈ l.map Prod.fst := by
  constructor
  · intro h
    by_contra hmem
    rw [(assocFind_eq_none_iff k l).mpr hmem] at h
    exact Bool.noConfusion h
  · exact assocFind_isSome_of_mem k l

/-- C4 (amended): re-inserting a key already present in an `ExpiringCache`
does not change `size(entries)` *provided the cache is below capacity*
(`size(entries) < maxSize`); the insert returns normally, refreshes the
key's expiry to `now() + ttl`, and moves it to the most-recently-inserted
(front) recency position.  (At capacity the same insert first evicts the
least-recently-inserted entry, so re-inserting any other key shrinks the
cache by one, as the counterexample shows.) -/
theorem C4_reinsert_below_capacity {K V : Type} [DecidableEq K]
    (c : ExpiringCache K V) (k : K) (v : V) (now : Int)
    (hmem : (assocFind k c.entries).isSome = true)
    (hroom : c.entries.length < c.maxSize) :
    (c.insert k v now).2 = true ∧
    (c.insert k v now).1.entries.length = c.entries.length ∧
    (c.insert k v now).1.entries = (k, ⟨now + c.ttl, v⟩) :: eraseKey k c.entries := by
  rw [insert_slack c k v now hroom]
  refine ⟨rfl, ?_, rfl⟩
  show ((k, (⟨now + c.ttl, v⟩ : CacheEntry V)) :: eraseKey k c.entries).length
    = c.entries.length
  have hm : k ∈ c.entries.map Prod.fst := (assocFind_isSome_iff k c.entries).mp hmem
  have := length_eraseKey_of_mem k c.entries hm
  simp only [List.length_cons]
  omega

/-- C4 witness: the amended theorem applied to `c4wCache` — overwriting
key `1` keeps the size at 1, refreshes the expiry to `0 + 10`, and keeps
the key at the front. -/
theorem C4_witness :
    ((assocFind 1 c4wCache.entries).isSome = true ∧
     c4wCache.entries.length < c4wCache.maxSize) ∧
    ((c4wCache.insert 1 9 0).2 = true ∧
     (c4wCache.insert 1 9 0).1.entries.length = c4wCache.entries.length ∧
     (c4wCache.insert 1 9 0).1.entries
       = (1, ⟨0 + c4wCache.ttl, 9⟩) :: eraseKey 1 c4wCache.entries) :=
  ⟨⟨rfl, by decide⟩, C4_reinsert_below_capacity c4wCache 1 9 0 rfl (by decide)⟩

theorem fetchCurrentLoop_all_past (now : Int) :
    ∀ l : List Reading, (∀ r ∈ l, r.endTime ≤ now) →
    fetchCurrentLoop now l = none := by
  intro l
  induction l with
  | nil => intro _; rfl
  | cons r rest ih =>
    intro h
    have hr : r.endTime ≤ now := h r (List.mem_cons_self r rest)
    have : ¬ now < r.endTime := not_lt.mpr hr
    simp only [fetchCurrentLoop, if_neg this]
    exact ih (fun x hx => h x (List.mem_cons_of_mem r hx))

theorem fetchCurrentLoop_first (now : Int) :
    ∀ (l₁ : List Reading) (r : Reading) (l₂ : List Reading),
    (∀ x ∈ l₁, x.endTime ≤ now) → now < r.endTime →
    fetchCurrentLoop now (l₁ ++ r :: l₂) = some r.value := by
  intro l₁
  induction l₁ with
  | nil =>
    intro r l₂ _ hr
    simp only [List.nil_append, fetchCurrentLoop, if_pos hr]
  | cons x rest ih =>
    intro r l₂ h hr
    have hx : x.endTime ≤ now := h x (List.mem_cons_self x rest)
    have : ¬ now < x.endTime := not_lt.mpr hx
    simp only [List.cons_append, fetchCurrentLoop, if_neg this]
    exact ih r l₂ (fun y hy => h y (List.mem_cons_of_mem x hy)) hr

/-- C9: `fetch_current` returns the value of the first reading in the
series' given order whose validity interval ends strictly after `now`, and
absent when no reading's interval end is after `now` (empty series
included); on `[{end in the past, value 1}, {end in the future, value 2}]`
it returns `2`, and on an all-past series it returns absent. -/
theorem C9_first_future_reading :
    (∀ (now : Int) (data : MeasureRecords),
      (∀ r ∈ data.values, r.endTime ≤ now) → fetch_current now data = none) ∧
    (∀ (now : Int) (uom : Option String) (l₁ : List Reading) (r : Reading)
      (l₂ : List Reading),
      (∀ x ∈ l₁, x.endTime ≤ now) → now < r.endTime →
      fetch_current now ⟨uom, l₁ ++ r :: l₂⟩ = some r.value) ∧
    fetch_current 0 ⟨none, [⟨-5, 1⟩, ⟨10, 2⟩]⟩ = some 2 ∧
    fetch_current 0 ⟨none, [⟨-5, 1⟩, ⟨-1, 2⟩]⟩ = none := by
  refine ⟨?_, ?_, ?_, ?_⟩
  · intro now data h
    exact fetchCurrentLoop_all_past now data.values h
  · intro now uom l₁ r l₂ h hr
    exact fetchCurrentLoop_first now l₁ r l₂ h hr
  · decide
  · decide

/-- C9 witness: the first-future-reading part applied to the two-reading
series of the claim's example. -/
theorem C9_witness :
    ((∀ x ∈ [(⟨-5, 1⟩ : Reading)], x.endTime ≤ (0 : Int)) ∧
     (0 : Int) < (10 : Int)) ∧
    fetch_current 0 ⟨none, [(⟨-5, 1⟩ : Reading)] ++ ⟨10, 2⟩ :: []⟩ = some 2 :=
  ⟨⟨by decide, by decide⟩,
   C9_first_future_reading.2.1 0 none [⟨-5, 1⟩] ⟨10, 2⟩ [] (by decide) (by decide)⟩

/-- C10: `convert_unit "percent"` yields the `ratio` converter mapping `50`
to `0.5`; `convert_unit "mm"` yields the `meters` converter mapping `10` to
`0.01`; any tag outside the six-entry `prom_units` enumeration yields
absent and appends that tag to the `weather_forecast_conversion_failures`
counter's labels. -/
theorem C10_convert_unit :
    (∃ u : UnitConversion, prom_units "percent" = some u ∧
      u.convert 50 = 1/2 ∧
      ∀ fs, convert_unit fs "percent" = (some u, fs)) ∧
    (∃ u : UnitConversion, prom_units "mm" = some u ∧
      u.convert 10 = 1/100 ∧
      ∀ fs, convert_unit fs "mm" = (some u, fs)) ∧
    (∀ (unit : String) (fs : List String),
      unit ∉ ["degC", "percent", "m", "degree_(angle)", "m_s-1", "mm"] →
      convert_unit fs unit = (none, fs ++ [unit])) := by
  refine ⟨⟨⟨"ratio", fun x => x / 100⟩, rfl, by norm_num, ?_⟩,
          ⟨⟨"meters", fun x => x / 1000⟩, rfl, by norm_num, ?_⟩, ?_⟩
  · intro fs
    rfl
  · intro fs
    rfl
  · intro unit fs h
    simp only [List.mem_cons, List.not_mem_nil, or_false, not_or] at h
    obtain ⟨h1, h2, h3, h4, h5, h6⟩ := h
    simp [convert_unit, prom_units, h1, h2, h3, h4, h5, h6]

/-- C10 witness: the unknown-tag part applied to `"unknown_unit"` with an
empty failure counter. -/
theorem C10_witness :
    ("unknown_unit" ∉ ["degC", "percent", "m", "degree_(angle)", "m_s-1",
      "mm"]) ∧
    convert_unit [] "unknown_unit" = (none, [] ++ ["unknown_unit"]) :=
  ⟨by decide, C10_convert_unit.2.2 "unknown_unit" [] (by decide)⟩

/-- C5 counterexample: with the remote returning a response missing `cwa`,
the first call returns absent and memoizes the absent result (`lru_cache`
caches the returned `None`), so the second identical call answers from the
memo without re-attempting the remote fetch (its fetch-attempted flag is
`false`), contradicting "this failed result is not memoized, so a
subsequent identical request re-attempts the remote fetch"; and with the
remote fetch failing, the call propagates the exception (`.error`) instead
of returning absent, contradicting "returns absent (rather than
raising)". -/
theorem C5_counterexample :
    get_gridpoint_location (.ok ⟨none, some 1, some 2⟩) ⟨[], 0⟩ ⟨0, 0⟩
      = .ok (none, ⟨[(⟨0, 0⟩, none)], 1⟩, true) ∧
    get_gridpoint_location (.ok ⟨none, some 1, some 2⟩) ⟨[(⟨0, 0⟩, none)], 1⟩
      ⟨0, 0⟩ = .ok (none, ⟨[(⟨0, 0⟩, none)], 1⟩, false) ∧
    get_gridpoint_location (.error ()) ⟨[], 0⟩ ⟨0, 0⟩ = .error ⟨[], 1⟩ := by
  refine ⟨rfl, rfl, rfl⟩

/-- C5 (amended): on a memo miss, a remote-fetch failure increments the
lookup-failure counter and propagates the exception (the call does not
return absent, and nothing is memoized); a completed fetch whose response
has missing/malformed fields returns absent, increments the lookup-failure
counter, and memoizes the absent result; any memoized result — absent
included — is returned on a subsequent identical request without
re-attempting the remote fetch. -/
theorem C5_resolver_failures (fetchRes : Except Unit PointsData)
    (memo : GridMemo) (ll : LatLong)
    (hmiss : assocFind ll memo.table = none) :
    (fetchRes = .error () →
      get_gridpoint_location fetchRes memo ll
        = .error ⟨memo.table, memo.failures + 1⟩) ∧
    (∀ d, fetchRes = .ok d → gridpointOfData d = none →
      get_gridpoint_location fetchRes memo ll
        = .ok (none, ⟨(ll, none) :: memo.table, memo.failures + 1⟩, true)) ∧
    (∀ (memo' : GridMemo) (r : Option GridpointLocation),
      assocFind ll memo'.table = some r →
      ∀ fr, get_gridpoint_location fr memo' ll = .ok (r, memo', false)) := by
  refine ⟨?_, ?_, ?_⟩
  · intro herr
    subst herr
    simp [get_gridpoint_location, hmiss]
  · intro d hok hnone
    subst hok
    simp [get_gridpoint_location, hmiss, hnone]
  · intro memo' r hhit fr
    simp [get_gridpoint_location, hhit]

/-- C5 witness: the amended theorem at the coordinate `(3, 4)` with an
empty memo: fetch failure propagates; a `cwa`-less response yields a
memoized absent; the memoized absent is then served without fetching. -/
theorem C5_witness :
    assocFind (⟨3, 4⟩ : LatLong) (⟨[], 7⟩ : GridMemo).table = none ∧
    (get_gridpoint_location (.error ()) ⟨[], 7⟩ ⟨3, 4⟩ = .error ⟨[], 8⟩) ∧
    (get_gridpoint_location (.ok ⟨none, some 1, some 2⟩) ⟨[], 7⟩ ⟨3, 4⟩
      = .ok (none, ⟨[(⟨3, 4⟩, none)], 8⟩, true)) ∧
    (get_gridpoint_location (.ok ⟨some "BOX", some 1, some 2⟩)
      ⟨[(⟨3, 4⟩, none)], 8⟩ ⟨3, 4⟩ = .ok (none, ⟨[(⟨3, 4⟩, none)], 8⟩, false)) := by
  have h := C5_resolver_failures (.error ()) ⟨[], 7⟩ ⟨3, 4⟩ rfl
  have h2 := C5_resolver_failures (.ok ⟨none, some 1, some 2⟩) ⟨[], 7⟩ ⟨3, 4⟩ rfl
  refine ⟨rfl, h.1 rfl, h2.2.1 ⟨none, some 1, some 2⟩ rfl rfl, ?_⟩
  exact h2.2.2 ⟨[(⟨3, 4⟩, none)], 8⟩ none rfl (.ok ⟨some "BOX", some 1, some 2⟩)

theorem addMetrics_assoc (a b c : PipelineMetrics) :
    addMetrics (addMetrics a b) c = addMetrics a (addMetrics b c) := by
  simp [addMetrics, Nat.add_assoc, List.append_assoc]

theorem addMetrics_init_left (a : PipelineMetrics) :
    addMetrics initMetrics a = a := by
  simp [addMetrics, initMetrics]

theorem processMeasure_spec (now : Int) (payload : Payload)
    (r : List (String × ℚ)) (met : PipelineMetrics) (m : Measure) :
    processMeasure now payload (r, met) m
      = (r ++ (measureEntry now payload m).toList,
         addMetrics met (measureDelta now payload m)) := by
  rcases hfind : assocFind m.key payload.properties with _ | records
  · simp [processMeasure, measureEntry, measureDelta, addMetrics, hfind]
  · by_cases hu : records.uom = some ("unit:" ++ m.unit) <;>
      rcases hv : fetch_current now records with _ | v <;>
      rcases hp : prom_units m.unit with _ | u <;>
      simp [processMeasure, measureEntry, measureDelta, addMetrics,
        convert_unit, hfind, hu, hv, hp]

theorem build_fold_spec (now : Int) (payload : Payload) :
    ∀ (measures : List Measure) (r : List (String × ℚ)) (met : PipelineMetrics),
    measures.foldl (processMeasure now payload) (r, met)
      = (r ++ measures.filterMap (measureEntry now payload),
         addMetrics met (totalDelta now payload measures)) := by
  intro measures
  induction measures with
  | nil =>
    intro r met
    simp [totalDelta, addMetrics, initMetrics]
  | cons m ms ih =>
    intro r met
    rw [List.foldl_cons, processMeasure_spec, ih]
    rcases he : measureEntry now payload m with _ | e <;>
      simp [List.filterMap_cons, he, totalDelta, addMetrics_assoc,
        List.append_assoc]

theorem build_report_spec (now : Int) (payload : Payload)
    (measures : List Measure) :
    build_report now payload measures
      = (measures.filterMap (measureEntry now payload),
         totalDelta now payload measures) := by
  unfold build_report
  rw [build_fold_spec]
  simp [addMetrics_init_left]

theorem totalDelta_append (now : Int) (payload : Payload)
    (l₁ l₂ : List Measure) :
    totalDelta now payload (l₁ ++ l₂)
      = addMetrics (totalDelta now payload l₁) (totalDelta now payload l₂) := by
  induction l₁ with
  | nil => simp [totalDelta, addMetrics_init_left]
  | cons m ms ih => simp [totalDelta, ih, addMetrics_assoc]

theorem filterMap_middle_none {A B : Type} (f : A → Option B)
    (pre post : List A) (m : A) (h : f m = none) :
    (pre ++ m :: post).filterMap f = (pre ++ post).filterMap f := by
  simp [List.filterMap_append, List.filterMap_cons, h]

/-- C7: inside the per-measure loop a descriptor whose `sourceKey` is
missing from the payload contributes nothing to the report and bumps
`weather_forecast_processing_failures` by exactly one; a found descriptor
with no current value contributes nothing and records its key under
`weather_forecast_fetch_current_failures`; one whose expected unit the
converter does not know contributes nothing and records that unit under the
conversion-failure labels.  In every case the remaining descriptors are
processed and their report entries are exactly those of the run without the
failing descriptor — the report build never aborts. -/
theorem C7_failure_skips_measurement (now : Int) (payload : Payload)
    (pre post : List Measure) (m : Measure) :
    (assocFind m.key payload.properties = none →
      (build_report now payload (pre ++ m :: post)).1
        = (build_report now payload (pre ++ post)).1 ∧
      (build_report now payload (pre ++ m :: post)).2.processingFailures
        = (build_report now payload (pre ++ post)).2.processingFailures + 1) ∧
    (∀ records, assocFind m.key payload.properties = some records →
      fetch_current now records = none →
      (build_report now payload (pre ++ m :: post)).1
        = (build_report now payload (pre ++ post)).1 ∧
      m.key ∈
        (build_report now payload (pre ++ m :: post)).2.fetchCurrentFailures) ∧
    (∀ records, assocFind m.key payload.properties = some records →
      prom_units m.unit = none →
      (build_report now payload (pre ++ m :: post)).1
        = (build_report now payload (pre ++ post)).1 ∧
      m.unit ∈ (build_report now payload (pre ++ m :: post)).2.convFailures) := by
  refine ⟨?_, ?_, ?_⟩
  · intro hfind
    have he : measureEntry now payload m = none := by
      simp [measureEntry, hfind]
    constructor
    · rw [build_report_spec, build_report_spec]
      exact filterMap_middle_none _ pre post m he
    · rw [build_report_spec, build_report_spec]
      show (totalDelta now payload (pre ++ m :: post)).processingFailures
        = (totalDelta now payload (pre ++ post)).processingFailures + 1
      have h1 : (m :: post) = [m] ++ post := rfl
      rw [totalDelta_append, h1, totalDelta_append, totalDelta_append]
      simp [totalDelta, measureDelta, hfind, addMetrics, initMetrics]
      omega
  · intro records hfind hv
    have he : measureEntry now payload m = none := by
      rcases hp : prom_units m.unit with _ | u <;>
        simp [measureEntry, hfind, hv, hp]
    constructor
    · rw [build_report_spec, build_report_spec]
      exact filterMap_middle_none _ pre post m he
    · rw [build_report_spec]
      show m.key ∈ (totalDelta now payload (pre ++ m :: post)).fetchCurrentFailures
      have h1 : (m :: post) = [m] ++ post := rfl
      rw [totalDelta_append, h1, totalDelta_append]
      simp [totalDelta, measureDelta, hfind, hv, addMetrics, initMetrics]
  · intro records hfind hp
    have he : measureEntry now payload m = none := by
      simp [measureEntry, hfind, hp]
    constructor
    · rw [build_report_spec, build_report_spec]
      exact filterMap_middle_none _ pre post m he
    · rw [build_report_spec]
      show m.unit ∈ (totalDelta now payload (pre ++ m :: post)).convFailures
      have h1 : (m :: post) = [m] ++ post := rfl
      rw [totalDelta_append, h1, totalDelta_append]
      simp [totalDelta, measureDelta, hfind, hp, addMetrics, initMetrics]

/-- A one-key forecast payload: only `temperature` is present, with a
reading valid until time 50. -/
def c7Payload : Payload :=
  ⟨[("temperature", ⟨some "unit:degC", [⟨50, 20⟩]⟩)]⟩

/-- C7 witness: with a payload missing `dewpoint`, building the report over
`[dewpoint, temperature]` at time 0 omits `dewpoint`, still yields exactly
the report of `[temperature]` alone, and bumps the processing-failure
counter by one. -/
theorem C7_witness :
    assocFind "dewpoint" c7Payload.properties = none ∧
    ((build_report 0 c7Payload
        ([] ++ ⟨"dewpoint", "dewpoint", "degC"⟩ ::
          [⟨"temperature", "temperature", "degC"⟩])).1
      = (build_report 0 c7Payload
          ([] ++ [⟨"temperature", "temperature", "degC"⟩])).1 ∧
     (build_report 0 c7Payload
        ([] ++ ⟨"dewpoint", "dewpoint", "degC"⟩ ::
          [⟨"temperature", "temperature", "degC"⟩])).2.processingFailures
      = (build_report 0 c7Payload
          ([] ++ [⟨"temperature", "temperature", "degC"⟩])).2.processingFailures
        + 1) :=
  ⟨rfl, (C7_failure_skips_measurement 0 c7Payload []
    [⟨"temperature", "temperature", "degC"⟩] ⟨"dewpoint", "dewpoint", "degC"⟩).1
    rfl⟩

/-- C8: a measure whose payload-declared `uom` differs from
`f"unit:{measure.unit}"` gets a mismatched-unit event labeled
`(measure.key, uom)`, yet its value is still extracted and converted with
the converter selected by the *expected* unit `measure.unit`, and the
converted value appears in the report under
`weather_{name}_{normalized unit}`. -/
theorem C8_mismatch_still_converts (now : Int) (payload : Payload)
    (pre post : List Measure) (m : Measure) (records : MeasureRecords)
    (u : UnitConversion) (v : ℚ)
    (hfind : assocFind m.key payload.properties = some records)
    (hmm : records.uom ≠ some ("unit:" ++ m.unit))
    (hu : prom_units m.unit = some u)
    (hv : fetch_current now records = some v) :
    (m.key, records.uom) ∈
      (build_report now payload (pre ++ m :: post)).2.mismatched ∧
    ("weather_" ++ m.name ++ "_" ++ u.name, u.convert v)
      ∈ (build_report now payload (pre ++ m :: post)).1 := by
  constructor
  · rw [build_report_spec]
    show (m.key, records.uom) ∈
      (totalDelta now payload (pre ++ m :: post)).mismatched
    have h1 : (m :: post) = [m] ++ post := rfl
    rw [totalDelta_append, h1, totalDelta_append]
    simp [totalDelta, measureDelta, hfind, hmm, addMetrics, initMetrics]
  · rw [build_report_spec]
    show ("weather_" ++ m.name ++ "_" ++ u.name, u.convert v)
      ∈ (pre ++ m :: post).filterMap (measureEntry now payload)
    have he : measureEntry now payload m
        = some ("weather_" ++ m.name ++ "_" ++ u.name, u.convert v) := by
      simp [measureEntry, hfind, hu, hv]
    simp [List.filterMap_append, List.filterMap_cons, he]

/-- A payload whose `relativeHumidity` record declares `unit:degF` instead
of the expected `unit:percent`. -/
def c8Payload : Payload :=
  ⟨[("relativeHumidity", ⟨some "unit:degF", [⟨50, 50⟩]⟩)]⟩

/-- C8 witness: despite the declared `unit:degF`, the relative-humidity
value 50 is converted with the `percent` converter and appears in the
report as `weather_relative_humidity_ratio = 1/2`, alongside the recorded
mismatch event. -/
theorem C8_witness :
    (assocFind "relativeHumidity" c8Payload.properties
        = some ⟨some "unit:degF", [⟨50, 50⟩]⟩ ∧
     (some "unit:degF" : Option String) ≠ some ("unit:" ++ "percent") ∧
     prom_units "percent" = some ⟨"ratio", fun x => x / 100⟩ ∧
     fetch_current 0 ⟨some "unit:degF", [⟨50, 50⟩]⟩ = some 50) ∧
    (("relativeHumidity", (some "unit:degF" : Option String)) ∈
      (build_report 0 c8Payload
        ([] ++ (⟨"relativeHumidity", "relative_humidity", "percent"⟩ : Measure)
          :: [])).2.mismatched ∧
     ("weather_" ++ "relative_humidity" ++ "_" ++ "ratio",
        (⟨"ratio", fun x => x / 100⟩ : UnitConversion).convert 50)
      ∈ (build_report 0 c8Payload
        ([] ++ (⟨"relativeHumidity", "relative_humidity", "percent"⟩ : Measure)
          :: [])).1) :=
  ⟨⟨rfl, by decide, rfl, rfl⟩,
   C8_mismatch_still_converts 0 c8Payload [] []
     ⟨"relativeHumidity", "relative_humidity", "percent"⟩
     ⟨some "unit:degF", [⟨50, 50⟩]⟩ ⟨"ratio", fun x => x / 100⟩ 50
     rfl (by decide) rfl rfl⟩

theorem get_writes_unchanged {K V : Type} [DecidableEq K]
    (c : ExpiringCache K V) (k : K) (now : Int) :
    ((c.get k now).2).writes = c.writes := by
  simp only [ExpiringCache.get]
  rcases assocFind k c.entries with _ | e
  · rfl
  · by_cases hexp : e.validity < now <;> simp [hexp]

/-- C6 counterexample: `c6Cache` holds an expired entry for the probed grid
point, so the probe itself deletes it; after the failed request (remote
fetch raising) the cache's entries are empty while they were nonempty
before — the entries are *not* unchanged by the failed request, because the
lazy expiry purge in `get` already removed the probed entry. -/
theorem C6_counterexample :
    (c6Cache.get ⟨"X", 0, 0⟩ 1).1 = none ∧
    errState (get_weather (.error ()) [] c6Cache 0 ⟨"X", 0, 0⟩ 1)
      = some ({ entries := [], maxSize := 4, ttl := 5, writes := 0,
                hits := 0, misses := 1, expirations := 1, overflow := 0 }, 1) ∧
    c6Cache.entries ≠ [] :=
  ⟨rfl, rfl, by decide⟩

/-- C6 (amended): when the cache probe misses and the remote forecast fetch
fails, `get_weather` increments the forecast-lookup-failure counter and
propagates the error; there is no retry and no cache write — the write
counter is unchanged and the cache state is exactly the post-probe state,
which equals the pre-call state whenever the probed key was absent (a probe
that missed due to expiry has already lazily deleted that one expired
entry). -/
theorem C6_fetch_failure_no_cache_write (measures : List Measure)
    (c : WeatherCache) (lf : Nat) (loc : GridpointLocation) (now : Int)
    (hmiss : (c.get loc now).1 = none) :
    get_weather (.error ()) measures c lf loc now
      = .error ((c.get loc now).2, lf + 1) ∧
    ((c.get loc now).2).writes = c.writes ∧
    (assocFind loc c.entries = none → ((c.get loc now).2).entries = c.entries) := by
  have hpair : c.get loc now = (none, (c.get loc now).2) := by
    rw [← hmiss]
  refine ⟨?_, get_writes_unchanged c loc now, ?_⟩
  · unfold get_weather
    rw [hpair]
  · intro habs
    simp [ExpiringCache.get, habs]

/-- C6 witness: the amended theorem on an empty forecast cache — the failed
request leaves the entries exactly as they were. -/
theorem C6_witness :
    ((mkCache GridpointLocation Report 4 5).get ⟨"BOX", 1, 2⟩ 0).1 = none ∧
    (get_weather (.error ()) [] (mkCache GridpointLocation Report 4 5) 3
        ⟨"BOX", 1, 2⟩ 0
      = .error (((mkCache GridpointLocation Report 4 5).get ⟨"BOX", 1, 2⟩ 0).2,
                3 + 1) ∧
     (((mkCache GridpointLocation Report 4 5).get ⟨"BOX", 1, 2⟩ 0).2).writes
       = (mkCache GridpointLocation Report 4 5).writes ∧
     (assocFind ⟨"BOX", 1, 2⟩ (mkCache GridpointLocation Report 4 5).entries
        = none →
      (((mkCache GridpointLocation Report 4 5).get ⟨"BOX", 1, 2⟩ 0).2).entries
        = (mkCache GridpointLocation Report 4 5).entries)) :=
  ⟨rfl, C6_fetch_failure_no_cache_write [] (mkCache GridpointLocation Report 4 5)
    3 ⟨"BOX", 1, 2⟩ 0 rfl⟩

end Weather
